import Mathlib

/-!
Verification development for the tap-notion incremental pagination and
tree-traversal engine (tap_notion/streams.py and tap_notion/client.py).

The Python code is shallowly embedded: JSON objects become association
lists of string keys to a small value type, datetimes become integer
instants (microseconds relative to the Unix epoch, computed with the
standard civil-calendar day algorithm), Python exceptions become Option
or Except results, and the recursive HTTP walker becomes a fuel-indexed
total function over an abstract fetch oracle.
-/

namespace TapNotion

/-- JSON-shaped values as they appear in the record dictionaries handled by
the tap: strings, booleans and null. -/
inductive JVal : Type where
  | s (v : String)
  | b (v : Bool)
  | n
deriving DecidableEq

/-- A JSON object: an association list from field names to values,
mirroring a Python dict (first binding of a key wins on lookup). -/
abbrev JObj : Type := List (String × JVal)

/-- Python dict.get: the value bound to the first occurrence of the key,
or none when the key is absent. -/
def JObj.get : JObj → String → Option JVal
  | [], _ => none
  | (k, v) :: rest, key => if k = key then some v else JObj.get rest key

/-- Python dict.setdefault: keep the existing binding if the key is
present, otherwise append the new binding. -/
def JObj.setdefault (o : JObj) (key : String) (v : JVal) : JObj :=
  match o.get key with
  | some _ => o
  | none => o ++ [(key, v)]

/-- Python dict assignment obj[key] = v: replace the first binding of the
key in place, or append when absent. -/
def JObj.set : JObj → String → JVal → JObj
  | [], key, v => [(key, v)]
  | (k, w) :: rest, key, v =>
      if k = key then (key, v) :: rest else (k, w) :: JObj.set rest key v

/-- Python truthiness for the JSON values of the model: empty strings,
false and null are falsy. -/
def jTruthy : JVal → Bool
  | .s v => !(v == "")
  | .b v => v
  | .n => false

/-- Truthiness of an optional value fetched by dict.get (a missing key
behaves like None, which is falsy). -/
def jvalTruthyOpt : Option JVal → Bool
  | none => false
  | some v => jTruthy v

/-- Truthiness of an optional cursor string: None and the empty string
are falsy, every other string is truthy. -/
def optTruthyStr : Option String → Bool
  | none => false
  | some s => !(s == "")

/-- Decidable equality of Except results, used to evaluate the embedded
fallible operations on concrete inputs. -/
instance {ε α : Type} [DecidableEq ε] [DecidableEq α] :
    DecidableEq (Except ε α)
  | .ok a, .ok b =>
      if h : a = b then .isTrue (by rw [h])
      else .isFalse (by intro hc; cases hc; exact h rfl)
  | .ok _, .error _ => .isFalse (by intro h; cases h)
  | .error _, .ok _ => .isFalse (by intro h; cases h)
  | .error a, .error b =>
      if h : a = b then .isTrue (by rw [h])
      else .isFalse (by intro hc; cases hc; exact h rfl)

/-- Python str() of a JSON value, as used when a value is interpolated
into a URL. -/
def pyStr : JVal → String
  | .s v => v
  | .b true => "True"
  | .b false => "False"
  | .n => "None"

/-! ## Calendar arithmetic

Models the instant represented by a timezone-aware Python datetime.
Instants are integers counting microseconds relative to 1970-01-01T00:00Z,
obtained from civil calendar fields with the standard days-from-civil
algorithm. Comparisons between aware datetimes in Python compare exactly
these instants. -/

/-- Days from 1970-01-01 to the given civil date (proleptic Gregorian,
year at least 1 as enforced by the parsers below). -/
def daysFromCivil (y m d : Nat) : Int :=
  let yAdj : Nat := if m ≤ 2 then y - 1 else y
  let era : Nat := yAdj / 400
  let yoe : Nat := yAdj % 400
  let mp : Nat := if 2 < m then m - 3 else m + 9
  let doy : Nat := (153 * mp + 2) / 5 + d - 1
  let doe : Nat := yoe * 365 + yoe / 4 - yoe / 100 + doy
  (era * 146097 + doe : Int) - 719468

/-- The instant (microseconds since the Unix epoch) of the given civil
fields interpreted at the given UTC offset in minutes. -/
def civilInstant (y m d hh mi ss frac : Nat) (offMin : Int) : Int :=
  (daysFromCivil y m d * 86400 + (hh * 3600 + mi * 60 + ss : Nat)) * 1000000
    + (frac : Int) - offMin * 60000000

/-- Whether a year is a Gregorian leap year. -/
def isLeap (y : Nat) : Bool :=
  (y % 4 == 0 && y % 100 != 0) || y % 400 == 0

/-- Number of days in a month of a given year. -/
def daysInMonth (y m : Nat) : Nat :=
  if m = 2 then (if isLeap y then 29 else 28)
  else if m = 4 ∨ m = 6 ∨ m = 9 ∨ m = 11 then 30
  else 31

/-! ## ISO 8601 parsing

Models the CPython parsers date.fromisoformat and datetime.fromisoformat
on the grammar relevant to this tap: a date YYYY-MM-DD, optionally
followed by a single separator character, a time HH[:MM[:SS[.ffffff]]]
and an optional numeric offset +HH:MM or -HH:MM. A parse failure, which
raises ValueError in Python, is modelled as none. -/

/-- Model of the Python str.strip method on a character list: drop
whitespace from both ends. -/
def pyStrip (cs : List Char) : List Char :=
  ((cs.dropWhile Char.isWhitespace).reverse.dropWhile Char.isWhitespace).reverse

/-- Numeric value of a decimal digit character, none for other
characters. -/
def digitVal (c : Char) : Option Nat :=
  if c.isDigit then some (c.toNat - 48) else none

/-- Read exactly the given number of decimal digits, accumulating their
value, and return the remaining characters. -/
def readDigits : Nat → Nat → List Char → Option (Nat × List Char)
  | 0, acc, cs => some (acc, cs)
  | _ + 1, _, [] => none
  | k + 1, acc, c :: cs =>
      match digitVal c with
      | some dv => readDigits k (acc * 10 + dv) cs
      | none => none

/-- Consume one expected character from the input. -/
def expectChar (c : Char) : List Char → Option (List Char)
  | [] => none
  | x :: xs => if x = c then some xs else none

/-- Take the longest prefix of decimal digits, returning their values and
the remaining characters. -/
def spanDigits : List Char → List Nat × List Char
  | [] => ([], [])
  | c :: cs =>
      match digitVal c with
      | some dv =>
          let p := spanDigits cs
          (dv :: p.1, p.2)
      | none => ([], c :: cs)

/-- Microsecond value of a fractional-second digit list of length one to
six, none otherwise. -/
def fracFromDigits (ds : List Nat) : Option Nat :=
  if ds.length = 0 ∨ 6 < ds.length then none
  else some (ds.foldl (fun a dv => a * 10 + dv) 0 * 10 ^ (6 - ds.length))

/-- Model of Python date.fromisoformat: parses exactly YYYY-MM-DD with a
valid year of at least 1, month and day. Input strings are taken as
character lists so that every computation reduces. -/
def date_fromisoformat (s : List Char) : Option (Nat × Nat × Nat) := do
  let (y, r1) ← readDigits 4 0 s
  let r2 ← expectChar '-' r1
  let (m, r3) ← readDigits 2 0 r2
  let r4 ← expectChar '-' r3
  let (d, r5) ← readDigits 2 0 r4
  if r5 = [] ∧ 1 ≤ y ∧ 1 ≤ m ∧ m ≤ 12 ∧ 1 ≤ d ∧ d ≤ daysInMonth y m then
    some (y, m, d)
  else none

/-- Time-of-day fields together with an optional UTC offset in minutes,
as produced by the datetime parser. -/
structure TimeTz where
  hh : Nat
  mi : Nat
  ss : Nat
  frac : Nat
  tz : Option Int
deriving DecidableEq

/-- Parse the optional trailing UTC offset: end of input means a naive
time, otherwise a sign followed by HH:MM consuming the whole rest. -/
def parseOffset : List Char → Option (Option Int)
  | [] => some none
  | c :: cs =>
      if c = '+' ∨ c = '-' then do
        let (oh, r1) ← readDigits 2 0 cs
        let r2 ← expectChar ':' r1
        let (om, r3) ← readDigits 2 0 r2
        if r3 = [] ∧ oh ≤ 23 ∧ om ≤ 59 then
          let mag : Int := oh * 60 + om
          some (some (if c = '-' then -mag else mag))
        else none
      else none

/-- Validate the time fields and attach the parsed offset. -/
def finishTime (hh mi ss frac : Nat) (rest : List Char) : Option TimeTz := do
  let off ← parseOffset rest
  if hh ≤ 23 ∧ mi ≤ 59 ∧ ss ≤ 59 then
    some ⟨hh, mi, ss, frac, off⟩
  else none

/-- Parse the time portion HH[:MM[:SS[.ffffff]]] followed by the optional
offset. -/
def parseTimePart (cs : List Char) : Option TimeTz := do
  let (hh, r1) ← readDigits 2 0 cs
  match r1 with
  | ':' :: r2 => do
      let (mi, r3) ← readDigits 2 0 r2
      match r3 with
      | ':' :: r4 => do
          let (ss, r5) ← readDigits 2 0 r4
          match r5 with
          | '.' :: r6 =>
              let p := spanDigits r6
              match fracFromDigits p.1 with
              | some fr => finishTime hh mi ss fr p.2
              | none => none
          | _ => finishTime hh mi ss 0 r5
      | _ => finishTime hh mi 0 0 r3
  | _ => finishTime hh 0 0 0 r1

/-- Civil datetime fields with an optional UTC offset in minutes, the
model of an aware-or-naive Python datetime. -/
structure PyDateTime where
  y : Nat
  m : Nat
  d : Nat
  hh : Nat
  mi : Nat
  ss : Nat
  frac : Nat
  tz : Option Int
deriving DecidableEq

/-- Model of Python datetime.fromisoformat: a date, optionally followed
by one separator character and a time with optional offset. -/
def datetime_fromisoformat (s : List Char) : Option PyDateTime := do
  let (y, r1) ← readDigits 4 0 s
  let r2 ← expectChar '-' r1
  let (m, r3) ← readDigits 2 0 r2
  let r4 ← expectChar '-' r3
  let (d, r5) ← readDigits 2 0 r4
  if 1 ≤ y ∧ 1 ≤ m ∧ m ≤ 12 ∧ 1 ≤ d ∧ d ≤ daysInMonth y m then
    match r5 with
    | [] => some ⟨y, m, d, 0, 0, 0, 0, none⟩
    | _ :: r6 =>
        (parseTimePart r6).map fun t => ⟨y, m, d, t.hh, t.mi, t.ss, t.frac, t.tz⟩
  else none

/-- The instant denoted by a parsed datetime at the given offset. -/
def instantOf (dt : PyDateTime) (offMin : Int) : Int :=
  civilInstant dt.y dt.m dt.d dt.hh dt.mi dt.ss dt.frac offMin

namespace SearchStream

/-- Embeds SearchStream._parse_iso8601 (streams.py lines 162-197): strip
whitespace; a 10-character string without T is parsed as a bare date and
resolved at midnight UTC; otherwise a trailing Z is normalized to +00:00,
the string is given to datetime.fromisoformat, a missing offset is
replaced by UTC, and the resulting aware instant is returned. A Python
ValueError is modelled as none. -/
def _parse_iso8601 (timestamp : String) : Option Int :=
  let ts := pyStrip timestamp.toList
  if ts.length = 10 ∧ ts.contains 'T' = false then
    (date_fromisoformat ts).map fun p => civilInstant p.1 p.2.1 p.2.2 0 0 0 0 0
  else
    let ts2 :=
      if ts.getLast? = some 'Z' then ts.dropLast ++ "+00:00".toList else ts
    (datetime_fromisoformat ts2).map fun dt => instantOf dt (dt.tz.getD 0)

/-- Embeds SearchStream._config_start_date (streams.py lines 199-222):
a missing or falsy start_date yields no cutoff, and any parse failure is
caught and also yields no cutoff. -/
def _config_start_date (start_date : Option String) : Option Int :=
  match start_date with
  | none => none
  | some s => if s = "" then none else _parse_iso8601 s

/-- Embeds SearchStream._effective_cutoff (streams.py lines 224-251).
The bookmark lookup models get_starting_timestamp: it may raise (error),
return no bookmark, or return a bookmark instant; a raised lookup is
treated as no bookmark, and the bookmark takes precedence over the
configured start_date via the Python or-expression (datetimes are always
truthy). -/
def _effective_cutoff (bookmarkLookup : Except Unit (Option Int))
    (start_date : Option String) : Option Int :=
  let bookmark : Option Int :=
    match bookmarkLookup with
    | .ok b => b
    | .error _ => none
  match bookmark with
  | some b => some b
  | none => _config_start_date start_date

/-- A page of the search response envelope: the results array and the
next_cursor token (JSON null becomes none). -/
structure SearchResponse where
  results : List JObj
  next_cursor : Option String

/-- Embeds one iteration of the timestamp-scanning loop of
get_next_page_token (streams.py lines 286-302): update the running oldest
timestamp from one record, skipping falsy, non-string and unparsable
last_edited_time values. -/
def scanStep (oldest : Option Int) (record : JObj) : Option Int :=
  match JObj.get record "last_edited_time" with
  | some v =>
      if jTruthy v then
        match v with
        | .s str =>
            match _parse_iso8601 str with
            | some parsed =>
                match oldest with
                | none => some parsed
                | some o => if parsed < o then some parsed else some o
            | none => oldest
        | _ => oldest
      else oldest
  | none => oldest

/-- Embeds the timestamp-scanning loop of get_next_page_token (streams.py
lines 283-302): fold over the page records keeping the oldest
successfully parsed last_edited_time. -/
def scanOldest (rs : List JObj) : Option Int :=
  rs.foldl scanStep none

/-- Embeds SearchStream.get_next_page_token (streams.py lines 253-310):
return the next_cursor unchanged when no cutoff is set or the cursor is
falsy; otherwise terminate pagination (return none) exactly when the
oldest parsed timestamp of the page is strictly older than the cutoff. -/
def get_next_page_token (bookmarkLookup : Except Unit (Option Int))
    (start_date : Option String) (resp : SearchResponse) : Option String :=
  match _effective_cutoff bookmarkLookup start_date with
  | none => resp.next_cursor
  | some c =>
      if optTruthyStr resp.next_cursor = false then resp.next_cursor
      else
        match scanOldest resp.results with
        | some oldest => if oldest < c then none else resp.next_cursor
        | none => resp.next_cursor

/-- Embeds SearchStream.post_process (streams.py lines 312-353): with no
cutoff keep every record; with a cutoff drop the record only when its
last_edited_time is truthy, is a string, parses, and is strictly older
than the cutoff; parse failures are caught and the record is kept. -/
def post_process (bookmarkLookup : Except Unit (Option Int))
    (start_date : Option String) (row : JObj) : Option JObj :=
  match _effective_cutoff bookmarkLookup start_date with
  | none => some row
  | some c =>
      match JObj.get row "last_edited_time" with
      | some v =>
          if jTruthy v then
            match v with
            | .s str =>
                match _parse_iso8601 str with
                | some parsed => if parsed < c then none else some row
                | none => some row
            | _ => some row
          else some row
      | none => some row

/-- Embeds SearchStream.get_child_context (streams.py lines 355-381):
when the object discriminator equals page, return a context holding the
record id under page_id (a missing id raises KeyError, modelled as
error); otherwise return no context. The context argument is unused, as
in the source. -/
def get_child_context (record : JObj) (_context : Option JObj) :
    Except Unit (Option JObj) :=
  if JObj.get record "object" = some (.s "page") then
    match JObj.get record "id" with
    | some v => .ok (some [("page_id", v)])
    | none => .error ()
  else .ok none

/-- Specification-side ordering key of a record: the parsed
last_edited_time when it is present, truthy, a string and parses; none
otherwise. This composes the per-record steps of the source loops. -/
def recordKey (r : JObj) : Option Int :=
  match JObj.get r "last_edited_time" with
  | some v =>
      if jTruthy v then
        match v with
        | .s str => _parse_iso8601 str
        | _ => none
      else none
  | none => none

/-- Specification-side minimum of a list of instants. -/
def listMin : List Int → Option Int
  | [] => none
  | a :: as =>
      match listMin as with
      | none => some a
      | some m => some (min a m)

/-- Specification-side minimum successfully parsed ordering key of a
page. -/
def pageMinKey (rs : List JObj) : Option Int :=
  listMin (rs.filterMap recordKey)

/-- Merge of two optional minima: the minimum of the present values. -/
def mergeMin : Option Int → Option Int → Option Int
  | none, x => x
  | some a, none => some a
  | some a, some b => some (min a b)

end SearchStream

namespace PageBlocksStream

/-- Embeds PageBlocksStream.post_process (streams.py lines 606-629):
when the context is truthy and holds a page_id key, assign that value to
the enrichment field _page_id of the row (an unconditional dict
assignment), then return the row. -/
def post_process (row : JObj) (context : Option JObj) : JObj :=
  match context with
  | none => row
  | some ctx =>
      if ctx = [] then row
      else
        match JObj.get ctx "page_id" with
        | some v => JObj.set row "_page_id" v
        | none => row

end PageBlocksStream

namespace BlockChildrenStream

/-- One page of the Notion block-children envelope: the results array and
the next_cursor token. -/
structure Page where
  results : List JObj
  next_cursor : Option String

/-- How a run of the fuel-indexed walker can fail: an HTTP error raised
by raise_for_status, or fuel exhaustion (the embedding artifact bounding
recursion depth and page count). -/
inductive WalkErr : Type where
  | http
  | fuel
deriving DecidableEq

/-- The HTTP fetch oracle of the walker: one GET of a block-children page
for a parent id and optional start_cursor, failing for non-2xx
responses. -/
abbrev FetchFn : Type := String → Option String → Except Unit Page

/-- Embeds the enrichment step of _iter_children (streams.py lines
793-800): setdefault of _page_id, and setdefault of _parent_block_id only
when the immediate parent block id is truthy. -/
def enrich (page_id : String) (parent_block_id : Option String) (block : JObj) :
    JObj :=
  let b1 := JObj.setdefault block "_page_id" (.s page_id)
  if optTruthyStr parent_block_id = true then
    JObj.setdefault b1 "_parent_block_id" (.s (parent_block_id.getD ""))
  else b1

/-- Embeds the per-page record loop of _iter_children (streams.py lines
792-817): enrich and emit each block in order, and after a block whose
has_children is truthy and whose id is a string, splice in the records of
the recursive descent produced by the given descend function; a block
whose id is missing or not a string is emitted without any descent. An
error from a descent aborts the whole loop. -/
def _process_blocks (descend : String → Except WalkErr (List JObj))
    (page_id : String) (parent_block_id : Option String) :
    List JObj → Except WalkErr (List JObj)
  | [] => .ok []
  | block :: rest =>
      let b := enrich page_id parent_block_id block
      let d : Except WalkErr (List JObj) :=
        if jvalTruthyOpt (JObj.get b "has_children") = true then
          match JObj.get b "id" with
          | some (.s current_block_id) => descend current_block_id
          | _ => .ok []
        else .ok []
      match d with
      | .error e => .error e
      | .ok ds =>
          match _process_blocks descend page_id parent_block_id rest with
          | .error e => .error e
          | .ok rs => .ok (b :: (ds ++ rs))

/-- Embeds BlockChildrenStream._iter_children (streams.py lines 729-824):
fetch the children page of the parent (propagating an HTTP failure as a
fatal error), process its blocks with recursive descent, and continue
with the next page while the next_cursor is truthy. The fuel argument
bounds recursion depth and page-chain length, making the embedding total;
a sufficiently large fuel never runs out on a finite tree. -/
def _iter_children (env : FetchFn) :
    Nat → String → String → Option String → Option String →
    Except WalkErr (List JObj)
  | 0, _, _, _, _ => .error .fuel
  | fuel + 1, parent_id, page_id, parent_block_id, cursor =>
      match env parent_id cursor with
      | .error _ => .error .http
      | .ok page =>
          match
            _process_blocks
              (fun current_block_id =>
                _iter_children env fuel current_block_id page_id
                  (some current_block_id) none)
              page_id parent_block_id page.results with
          | .error e => .error e
          | .ok recs =>
              if optTruthyStr page.next_cursor = true then
                match
                  _iter_children env fuel parent_id page_id parent_block_id
                    page.next_cursor with
                | .error e => .error e
                | .ok more => .ok (recs ++ more)
              else .ok recs

/-- Embeds BlockChildrenStream._walk_blocks (streams.py lines 709-727):
start the traversal at the children of the page, with no immediate parent
block. -/
def _walk_blocks (env : FetchFn) (fuel : Nat) (page_id : String) :
    Except WalkErr (List JObj) :=
  _iter_children env fuel page_id page_id none none

/-- Embeds BlockChildrenStream.get_records (streams.py lines 686-707): a
falsy context or a context lacking page_id yields the empty record set;
otherwise walk the blocks of the page named by the context. -/
def get_records (env : FetchFn) (fuel : Nat) (context : Option JObj) :
    Except WalkErr (List JObj) :=
  match context with
  | none => .ok []
  | some ctx =>
      if ctx = [] then .ok []
      else
        match JObj.get ctx "page_id" with
        | none => .ok []
        | some v => _walk_blocks env fuel (pyStr v)

/-! ## Synthetic containment trees

The environment class quantified over by the traversal claims: a finite
tree of blocks with a child listing per node. Each listing is served as a
single page containing exactly the children of the node, which
instantiates the paginated child-listing contract. -/

mutual
/-- A block of a synthetic containment tree: its JSON object as returned
by the API and the forest of its children. -/
inductive TNode : Type where
  | mk : JObj → TForest → TNode

/-- A forest of synthetic containment-tree blocks. -/
inductive TForest : Type where
  | nil : TForest
  | cons : TNode → TForest → TForest
end

/-- The JSON object of a tree block. -/
def TNode.objOf : TNode → JObj
  | .mk o _ => o

/-- The child forest of a tree block. -/
def TNode.kids : TNode → TForest
  | .mk _ c => c

/-- The id string stored in a JSON object, with an empty default for
malformed objects (excluded by the well-formedness predicate). -/
def idStr (o : JObj) : String :=
  match JObj.get o "id" with
  | some (.s i) => i
  | _ => ""

/-- The JSON objects of the top-level blocks of a forest, the contents of
the single listing page of their parent. -/
def topObjs : TForest → List JObj
  | .nil => []
  | .cons n f => n.objOf :: topObjs f

mutual
/-- All blocks of a tree, the node itself first. -/
def allN : TNode → List TNode
  | .mk o ch => .mk o ch :: allF ch

/-- All blocks of a forest in pre-order. -/
def allF : TForest → List TNode
  | .nil => []
  | .cons n f => allN n ++ allF f
end

mutual
/-- The ids of all blocks of a tree in pre-order. -/
def idsN : TNode → List String
  | .mk o ch => idStr o :: idsF ch

/-- The ids of all blocks of a forest in pre-order. -/
def idsF : TForest → List String
  | .nil => []
  | .cons n f => idsN n ++ idsF f
end

mutual
/-- Height of a tree: one more than the height of its child forest. -/
def heightN : TNode → Nat
  | .mk _ ch => heightF ch + 1

/-- Height of a forest: the maximal height of its trees. -/
def heightF : TForest → Nat
  | .nil => 0
  | .cons n f => max (heightN n) (heightF f)
end

mutual
/-- Find the first block with the given id in a tree. -/
def findN : TNode → String → Option TNode
  | .mk o ch, i => if idStr o = i then some (.mk o ch) else findF ch i

/-- Find the first block with the given id in a forest. -/
def findF : TForest → String → Option TNode
  | .nil, _ => none
  | .cons n f, i =>
      match findN n i with
      | some r => some r
      | none => findF f i
end

mutual
/-- Well-formedness of a tree block: its object carries a string id and
no pre-existing enrichment fields, and its children are well formed. -/
def okN : TNode → Bool
  | .mk o ch =>
      (match JObj.get o "id" with
       | some (.s _) => true
       | _ => false)
      && (JObj.get o "_page_id").isNone
      && (JObj.get o "_parent_block_id").isNone
      && okF ch

/-- Well-formedness of every block of a forest. -/
def okF : TForest → Bool
  | .nil => true
  | .cons n f => okN n && okF f
end

/-- The fetch oracle presented by a synthetic tree rooted at the given
page id: the page id lists the top-level blocks, each block id lists the
children of that block, and every listing is a single page with exactly
the children. Unknown ids fail (they are never requested on well-formed
trees). -/
def treeEnv (pid : String) (f : TForest) : FetchFn := fun parent _cursor =>
  if parent = pid then .ok ⟨topObjs f, none⟩
  else
    match findF f parent with
    | some n => .ok ⟨topObjs n.kids, none⟩
    | none => .error ()

mutual
/-- The expected walker output for one tree block: the enriched block
followed, exactly when its has_children flag is truthy and its id is a
string, by the expected output of its child forest. This is the gated
pre-order enumeration of the reachable blocks. -/
def emitN (pid : String) (pbid : Option String) : TNode → List JObj
  | .mk o ch =>
      let b := enrich pid pbid o
      b ::
        (if jvalTruthyOpt (JObj.get b "has_children") = true then
          match JObj.get b "id" with
          | some (.s cid) => emitF pid (some cid) ch
          | _ => []
        else [])

/-- The expected walker output for a forest, tree by tree. -/
def emitF (pid : String) (pbid : Option String) : TForest → List JObj
  | .nil => []
  | .cons n f => emitN pid pbid n ++ emitF pid pbid f
end

/-- A concrete synthetic containment forest of depth three with
branching, used to evaluate the traversal claims on a closed input. -/
def sampleForest : TForest :=
  .cons
    (.mk [("id", JVal.s "a"), ("has_children", JVal.b true)]
      (.cons
        (.mk [("id", JVal.s "b"), ("has_children", JVal.b true)]
          (.cons (.mk [("id", JVal.s "d"), ("has_children", JVal.b false)] .nil)
            .nil))
        .nil))
    (.cons (.mk [("id", JVal.s "c"), ("has_children", JVal.b false)] .nil) .nil)

/-- Whether an optional JSON value is a string, the isinstance test
guarding recursion in _iter_children (streams.py line 811). -/
def isStringVal : Option JVal → Bool
  | some (.s _) => true
  | _ => false

/-- The id string of a record, when its id field is a string. -/
def idOf (r : JObj) : Option String :=
  match JObj.get r "id" with
  | some (.s i) => some i
  | _ => none

/-- The id strings of a list of emitted records. -/
def objIds (rs : List JObj) : List String :=
  rs.filterMap idOf

end BlockChildrenStream

/-! ## Helper lemmas about the dict model -/

/-- Lookup after appending a single binding: the original binding wins,
and the appended binding is found only when the key was absent. -/
theorem JObj.get_append (o : JObj) (k key : String) (v : JVal) :
    JObj.get (o ++ [(k, v)]) key =
      match JObj.get o key with
      | some w => some w
      | none => if k = key then some v else none := by
  induction o with
  | nil => simp [JObj.get]
  | cons p rest ih =>
      obtain ⟨k0, v0⟩ := p
      by_cases h : k0 = key <;> simp [JObj.get, h, ih]

/-- setdefault never changes the binding of a different key. -/
theorem JObj.get_setdefault_ne (o : JObj) (k v) (key : String) (h : k ≠ key) :
    JObj.get (JObj.setdefault o k v) key = JObj.get o key := by
  unfold JObj.setdefault
  cases hg : JObj.get o k with
  | some w => rfl
  | none => rw [JObj.get_append]; cases hg2 : JObj.get o key <;> simp [h]

/-- setdefault keeps an existing binding of its key. -/
theorem JObj.get_setdefault_present (o : JObj) (k v w)
    (h : JObj.get o k = some w) :
    JObj.get (JObj.setdefault o k v) k = some w := by
  unfold JObj.setdefault
  rw [h]
  exact h

/-- setdefault installs its value when the key was absent. -/
theorem JObj.get_setdefault_absent (o : JObj) (k v)
    (h : JObj.get o k = none) :
    JObj.get (JObj.setdefault o k v) k = some v := by
  unfold JObj.setdefault
  rw [h, JObj.get_append, h]
  simp

/-- Assignment installs its value for its key regardless of any previous
binding. -/
theorem JObj.get_set_same (o : JObj) (k : String) (v : JVal) :
    JObj.get (JObj.set o k v) k = some v := by
  induction o with
  | nil => simp [JObj.set, JObj.get]
  | cons p rest ih =>
      obtain ⟨k0, v0⟩ := p
      by_cases h : k0 = k <;> simp [JObj.set, JObj.get, h, ih]

/-! ## Lemmas about the walker enrichment -/

namespace BlockChildrenStream

/-- Enrichment leaves every field other than the two enrichment fields
unchanged. -/
theorem enrich_get_other (pid : String) (pbid : Option String) (o : JObj)
    (key : String) (h1 : key ≠ "_page_id") (h2 : key ≠ "_parent_block_id") :
    JObj.get (enrich pid pbid o) key = JObj.get o key := by
  unfold enrich
  split
  · rw [JObj.get_setdefault_ne _ _ _ _ (Ne.symm h2),
      JObj.get_setdefault_ne _ _ _ _ (Ne.symm h1)]
  · rw [JObj.get_setdefault_ne _ _ _ _ (Ne.symm h1)]

/-- Enrichment fills a missing _page_id with the originating page id. -/
theorem enrich_page_id_absent (pid : String) (pbid : Option String) (o : JObj)
    (h : JObj.get o "_page_id" = none) :
    JObj.get (enrich pid pbid o) "_page_id" = some (.s pid) := by
  unfold enrich
  split
  · rw [JObj.get_setdefault_ne _ _ _ _ (by decide)]
    exact JObj.get_setdefault_absent _ _ _ h
  · exact JObj.get_setdefault_absent _ _ _ h

end BlockChildrenStream

/-! ## Claims about cutoff resolution and context propagation -/

/-- Claim C4: with both a bookmark B and a configured start boundary
present, the effective cutoff equals the bookmark B and never the
configured boundary C when they differ; the configured boundary is
consulted only when the bookmark is absent (no bookmark returned, or the
lookup raised). -/
theorem claim_C4 (bl : Except Unit (Option Int)) (sd : Option String) (b : Int) :
    (bl = .ok (some b) → SearchStream._effective_cutoff bl sd = some b)
    ∧ (∀ c : Int, bl = .ok (some b) → SearchStream._config_start_date sd = some c →
        b ≠ c → SearchStream._effective_cutoff bl sd ≠ some c)
    ∧ (bl = .ok none →
        SearchStream._effective_cutoff bl sd = SearchStream._config_start_date sd)
    ∧ (bl = .error () →
        SearchStream._effective_cutoff bl sd = SearchStream._config_start_date sd) := by
  refine ⟨?_, ?_, ?_, ?_⟩
  · rintro rfl
    rfl
  · rintro c rfl hc hne heq
    rw [show SearchStream._effective_cutoff (Except.ok (some b)) sd = some b from rfl]
      at heq
    exact hne (Option.some.inj heq)
  · rintro rfl
    rfl
  · rintro rfl
    rfl

/-- Witness for claim C4 at a concrete bookmark 5 and configured boundary
1970-01-01 (instant 0). -/
theorem claim_C4_witness :
    SearchStream._effective_cutoff (.ok (some 5)) (some "1970-01-01") = some 5
    ∧ SearchStream._effective_cutoff (.ok (some 5)) (some "1970-01-01") ≠ some 0 := by
  refine ⟨(claim_C4 (.ok (some 5)) (some "1970-01-01") 5).1 rfl, ?_⟩
  exact (claim_C4 (.ok (some 5)) (some "1970-01-01") 5).2.1 0 rfl (by decide) (by decide)

/-- Claim C8: for a record carrying an id, get_child_context returns a
context holding exactly that id under page_id precisely when the object
discriminator equals page, returns no context otherwise, and its result
is a function of the record alone (the context argument is irrelevant and
no cutoff is consulted). -/
theorem claim_C8 (record : JObj) (ctx : Option JObj) (v : JVal)
    (hid : JObj.get record "id" = some v) :
    (SearchStream.get_child_context record ctx = .ok (some [("page_id", v)]) ↔
        JObj.get record "object" = some (.s "page"))
    ∧ (JObj.get record "object" ≠ some (.s "page") →
        SearchStream.get_child_context record ctx = .ok none)
    ∧ ∀ ctx2, SearchStream.get_child_context record ctx =
        SearchStream.get_child_context record ctx2 := by
  unfold SearchStream.get_child_context
  by_cases h : JObj.get record "object" = some (.s "page")
  · rw [hid]
    simp [h]
  · simp [h]

/-- Witness for claim C8: a page record produces its id as the child
context, and a database record produces none. -/
theorem claim_C8_witness :
    SearchStream.get_child_context [("object", JVal.s "page"), ("id", JVal.s "abc")] none
      = .ok (some [("page_id", JVal.s "abc")])
    ∧ SearchStream.get_child_context [("object", JVal.s "database"), ("id", JVal.s "d1")] none
      = .ok none := by
  constructor
  · exact (claim_C8 [("object", JVal.s "page"), ("id", JVal.s "abc")] none
      (JVal.s "abc") (by decide)).1.mpr (by decide)
  · exact (claim_C8 [("object", JVal.s "database"), ("id", JVal.s "d1")] none
      (JVal.s "d1") (by decide)).2.1 (by decide)

/-- Claim C9: invoking the record generator with no context, or with a
context that lacks a page_id key (including the falsy empty context),
yields the empty record set and no error. -/
theorem claim_C9 (env : BlockChildrenStream.FetchFn) (fuel : Nat) :
    BlockChildrenStream.get_records env fuel none = .ok []
    ∧ ∀ ctx : JObj, JObj.get ctx "page_id" = none →
        BlockChildrenStream.get_records env fuel (some ctx) = .ok [] := by
  refine ⟨rfl, fun ctx h => ?_⟩
  unfold BlockChildrenStream.get_records
  by_cases hc : ctx = [] <;> simp [hc, h]

/-! ## Claims about the per-record cutoff filter and pagination cutoff -/

/-- Structural characterization of post_process: with a cutoff, the
record is dropped exactly when its ordering key parses and is strictly
older; in every other case the row is returned unchanged. -/
theorem post_process_key (bl : Except Unit (Option Int)) (sd : Option String)
    (row : JObj) :
    SearchStream.post_process bl sd row =
      match SearchStream._effective_cutoff bl sd with
      | none => some row
      | some c =>
          match SearchStream.recordKey row with
          | some t => if t < c then none else some row
          | none => some row := by
  unfold SearchStream.post_process SearchStream.recordKey
  cases SearchStream._effective_cutoff bl sd with
  | none => rfl
  | some c =>
      cases hv : JObj.get row "last_edited_time" with
      | none => rfl
      | some v =>
          cases hjt : jTruthy v with
          | false => simp [hjt]
          | true =>
              cases v with
              | n => simp [jTruthy] at hjt
              | b bb => simp [hjt]
              | s str =>
                  cases hp : SearchStream._parse_iso8601 str <;> simp [hjt, hp]

/-- Claim C3: when a cutoff is set, post_process drops a record (returns
none) exactly when its last_edited_time is present, truthy, parses, and
is strictly older than the cutoff; records with an equal, missing or
unparsable key are returned unchanged, and with no cutoff every record is
returned unchanged. The embedding is total, so no exception escapes. -/
theorem claim_C3 (bl : Except Unit (Option Int)) (sd : Option String)
    (row : JObj) (c : Int) :
    (SearchStream._effective_cutoff bl sd = some c →
      (SearchStream.post_process bl sd row = none ↔
        ∃ t, SearchStream.recordKey row = some t ∧ t < c))
    ∧ (SearchStream._effective_cutoff bl sd = some c →
        (∀ t, SearchStream.recordKey row = some t → ¬ t < c) →
        SearchStream.post_process bl sd row = some row)
    ∧ (SearchStream._effective_cutoff bl sd = none →
        SearchStream.post_process bl sd row = some row) := by
  refine ⟨fun hcut => ?_, fun hcut hkeep => ?_, fun hcut => ?_⟩
  · rw [post_process_key, hcut]
    cases hk : SearchStream.recordKey row with
    | none => simp [hk]
    | some t =>
        by_cases hlt : t < c <;> simp [hk, hlt]
  · rw [post_process_key, hcut]
    cases hk : SearchStream.recordKey row with
    | none => simp
    | some t => simp [hkeep t hk]
  · rw [post_process_key, hcut]

/-- Witness for claim C3 with cutoff instant 100: a record from 1970
(key 0) is dropped, and a record whose key equals the cutoff exactly is
kept unchanged. -/
theorem claim_C3_witness :
    SearchStream.post_process (.ok (some 100)) none
        [("last_edited_time", JVal.s "1970-01-01")] = none
    ∧ SearchStream.post_process (.ok (some 100)) none
        [("last_edited_time", JVal.s "1970-01-01T00:00:00.0001")] =
      some [("last_edited_time", JVal.s "1970-01-01T00:00:00.0001")] := by
  constructor
  · exact ((claim_C3 (.ok (some 100)) none
      [("last_edited_time", JVal.s "1970-01-01")] 100).1 rfl).mpr
      ⟨0, by decide, by decide⟩
  · refine (claim_C3 (.ok (some 100)) none
      [("last_edited_time", JVal.s "1970-01-01T00:00:00.0001")] 100).2.1 rfl ?_
    intro t ht
    rw [show SearchStream.recordKey
        [("last_edited_time", JVal.s "1970-01-01T00:00:00.0001")] = some 100
      from by decide] at ht
    cases ht
    decide

/-- One scan step in terms of the record ordering key. -/
theorem scanStep_key (oldest : Option Int) (record : JObj) :
    SearchStream.scanStep oldest record =
      match SearchStream.recordKey record with
      | some parsed =>
          match oldest with
          | none => some parsed
          | some o => if parsed < o then some parsed else some o
      | none => oldest := by
  unfold SearchStream.scanStep SearchStream.recordKey
  cases hv : JObj.get record "last_edited_time" with
  | none => rfl
  | some v =>
      cases hjt : jTruthy v with
      | false => simp [hjt]
      | true =>
          cases v with
          | n => simp [jTruthy] at hjt
          | b bb => simp [hjt]
          | s str =>
              cases hp : SearchStream._parse_iso8601 str <;> simp [hjt, hp]

/-- Tracking the running minimum with a strict comparison computes the
minimum. -/
theorem if_lt_min (t o : Int) :
    (if t < o then some t else some o) = some (min o t) := by
  by_cases h : t < o
  · simp [h, min_eq_right h.le]
  · simp [h, min_eq_left (not_lt.mp h)]

/-- mergeMin is associative. -/
theorem mergeMin_assoc (a b c : Option Int) :
    SearchStream.mergeMin (SearchStream.mergeMin a b) c =
      SearchStream.mergeMin a (SearchStream.mergeMin b c) := by
  cases a <;> cases b <;> cases c <;> simp [SearchStream.mergeMin, min_assoc]

/-- Unfolding listMin over a cons as a merge. -/
theorem listMin_cons (t : Int) (l : List Int) :
    SearchStream.listMin (t :: l) =
      SearchStream.mergeMin (some t) (SearchStream.listMin l) := by
  cases h : SearchStream.listMin l <;> simp [SearchStream.listMin, h, SearchStream.mergeMin]

/-- The scanning fold computes the merge of its accumulator with the
minimum parsed key of the page. -/
theorem foldl_scanStep (rs : List JObj) (acc : Option Int) :
    rs.foldl SearchStream.scanStep acc =
      SearchStream.mergeMin acc (SearchStream.pageMinKey rs) := by
  induction rs generalizing acc with
  | nil => cases acc <;> rfl
  | cons r rs ih =>
      rw [List.foldl_cons, ih, scanStep_key]
      cases hk : SearchStream.recordKey r with
      | none =>
          simp only [SearchStream.pageMinKey, List.filterMap_cons, hk]
      | some t =>
          simp only [SearchStream.pageMinKey, List.filterMap_cons, hk, listMin_cons]
          rw [← mergeMin_assoc]
          congr 1
          cases acc with
          | none => rfl
          | some o => simp [SearchStream.mergeMin, if_lt_min t o]

/-- The scan loop of get_next_page_token computes exactly the minimum
successfully parsed ordering key of the page. -/
theorem scanOldest_eq (rs : List JObj) :
    SearchStream.scanOldest rs = SearchStream.pageMinKey rs := by
  unfold SearchStream.scanOldest
  rw [foldl_scanStep]
  cases SearchStream.pageMinKey rs <;> rfl

/-- Claim C1: with a cutoff set and a truthy next cursor, pagination
stops (no token) exactly when the minimum successfully parsed
last_edited_time of the page is strictly older than the cutoff; a page
with no parseable keys never terminates; with no cutoff or no truthy
cursor the next_cursor is returned unchanged. -/
theorem claim_C1 (bl : Except Unit (Option Int)) (sd : Option String)
    (resp : SearchStream.SearchResponse) (c : Int) :
    (SearchStream._effective_cutoff bl sd = some c →
      optTruthyStr resp.next_cursor = true →
      (SearchStream.get_next_page_token bl sd resp = none ↔
        ∃ m, SearchStream.pageMinKey resp.results = some m ∧ m < c))
    ∧ (SearchStream._effective_cutoff bl sd = some c →
        resp.results.filterMap SearchStream.recordKey = [] →
        SearchStream.get_next_page_token bl sd resp = resp.next_cursor)
    ∧ (SearchStream._effective_cutoff bl sd = none →
        SearchStream.get_next_page_token bl sd resp = resp.next_cursor)
    ∧ (optTruthyStr resp.next_cursor = false →
        SearchStream.get_next_page_token bl sd resp = resp.next_cursor) := by
  have hcursor : optTruthyStr resp.next_cursor = true → resp.next_cursor ≠ none := by
    intro h hn
    rw [hn] at h
    simp [optTruthyStr] at h
  refine ⟨fun hcut htr => ?_, fun hcut hemp => ?_, fun hcut => ?_, fun hfalsy => ?_⟩
  · unfold SearchStream.get_next_page_token
    rw [hcut, htr, scanOldest_eq]
    simp only [Bool.true_eq_false, if_false]
    cases hm : SearchStream.pageMinKey resp.results with
    | none => simp [hcursor htr]
    | some m =>
        by_cases hlt : m < c
        · simp [hlt]
        · simp [hlt, hcursor htr]
  · unfold SearchStream.get_next_page_token
    rw [hcut, scanOldest_eq]
    rw [show SearchStream.pageMinKey resp.results = none from by
      unfold SearchStream.pageMinKey; rw [hemp]; rfl]
    split <;> simp
  · unfold SearchStream.get_next_page_token
    rw [hcut]
  · unfold SearchStream.get_next_page_token
    cases hc : SearchStream._effective_cutoff bl sd with
    | none => rfl
    | some c2 => rw [hfalsy]; simp

/-- Witness for claim C1, the end-to-end example of the spec: a page with
keys 2024-03-01 and 2024-02-15 under cutoff 2024-02-20 stops pagination,
while a page with no parseable keys passes the cursor through. -/
theorem claim_C1_witness :
    SearchStream.get_next_page_token
        (.ok (some (civilInstant 2024 2 20 0 0 0 0 0))) none
        ⟨[[("last_edited_time", JVal.s "2024-03-01")],
          [("last_edited_time", JVal.s "2024-02-15")]], some "cur"⟩ = none
    ∧ SearchStream.get_next_page_token
        (.ok (some (civilInstant 2024 2 20 0 0 0 0 0))) none
        ⟨[[("last_edited_time", JVal.s "oops")]], some "cur"⟩ = some "cur" := by
  constructor
  · exact ((claim_C1 (.ok (some (civilInstant 2024 2 20 0 0 0 0 0))) none
      ⟨[[("last_edited_time", JVal.s "2024-03-01")],
        [("last_edited_time", JVal.s "2024-02-15")]], some "cur"⟩
      (civilInstant 2024 2 20 0 0 0 0 0)).1 rfl (by decide)).mpr
      ⟨civilInstant 2024 2 15 0 0 0 0 0, by decide, by decide⟩
  · exact (claim_C1 (.ok (some (civilInstant 2024 2 20 0 0 0 0 0))) none
      ⟨[[("last_edited_time", JVal.s "oops")]], some "cur"⟩
      (civilInstant 2024 2 20 0 0 0 0 0)).2.1 rfl (by decide)

/-! ## Claim about configured start-boundary parsing -/

/-- Claim C6: a bare YYYY-MM-DD start string resolves to midnight UTC of
that date; an ISO timestamp with an explicit numeric offset resolves to
that instant; a timestamp with a trailing Z is parsed after the Z is
normalized to +00:00 and resolves under the UTC default; a timestamp with
no offset is assumed UTC; and an absent, empty or unparsable start string
resolves to no cutoff without raising (the resolver is total). -/
theorem claim_C6 :
    (∀ (s : String) (y m d : Nat),
      pyStrip s.toList = s.toList →
      s.toList.length = 10 →
      s.toList.contains 'T' = false →
      date_fromisoformat s.toList = some (y, m, d) →
      SearchStream._parse_iso8601 s = some (civilInstant y m d 0 0 0 0 0))
    ∧ (∀ (s : String) (dt : PyDateTime) (off : Int),
        pyStrip s.toList = s.toList →
        ¬(s.toList.length = 10 ∧ s.toList.contains 'T' = false) →
        s.toList.getLast? ≠ some 'Z' →
        datetime_fromisoformat s.toList = some dt →
        dt.tz = some off →
        SearchStream._parse_iso8601 s = some (instantOf dt off))
    ∧ (∀ (s : String) (dt : PyDateTime),
        pyStrip s.toList = s.toList →
        ¬(s.toList.length = 10 ∧ s.toList.contains 'T' = false) →
        s.toList.getLast? = some 'Z' →
        datetime_fromisoformat (s.toList.dropLast ++ "+00:00".toList) = some dt →
        SearchStream._parse_iso8601 s = some (instantOf dt (dt.tz.getD 0)))
    ∧ (∀ (s : String) (dt : PyDateTime),
        pyStrip s.toList = s.toList →
        ¬(s.toList.length = 10 ∧ s.toList.contains 'T' = false) →
        s.toList.getLast? ≠ some 'Z' →
        datetime_fromisoformat s.toList = some dt →
        dt.tz = none →
        SearchStream._parse_iso8601 s = some (instantOf dt 0))
    ∧ SearchStream._config_start_date none = none
    ∧ SearchStream._config_start_date (some "") = none
    ∧ (∀ s : String, SearchStream._parse_iso8601 s = none →
        SearchStream._config_start_date (some s) = none) := by
  refine ⟨fun s y m d hstrip hlen hT hdate => ?_,
    fun s dt off hstrip hbare hz hdt htz => ?_,
    fun s dt hstrip hbare hz hdt => ?_,
    fun s dt hstrip hbare hz hdt htz => ?_, rfl, rfl, fun s hparse => ?_⟩
  · unfold SearchStream._parse_iso8601
    rw [hstrip, if_pos ⟨hlen, hT⟩, hdate]
    rfl
  · unfold SearchStream._parse_iso8601
    rw [hstrip, if_neg hbare, if_neg hz]
    dsimp only
    rw [hdt]
    simp [htz]
  · unfold SearchStream._parse_iso8601
    rw [hstrip, if_neg hbare, if_pos hz]
    dsimp only
    rw [hdt]
    rfl
  · unfold SearchStream._parse_iso8601
    rw [hstrip, if_neg hbare, if_neg hz]
    dsimp only
    rw [hdt]
    simp [htz]
  · unfold SearchStream._config_start_date
    by_cases hs : s = "" <;> simp [hs, hparse]

/-- Witness for claim C6 at concrete strings of each accepted form and
one malformed string. -/
theorem claim_C6_witness :
    SearchStream._parse_iso8601 "2024-03-05" = some (civilInstant 2024 3 5 0 0 0 0 0)
    ∧ SearchStream._parse_iso8601 "2024-01-15T10:30:00+02:00" =
        some (instantOf ⟨2024, 1, 15, 10, 30, 0, 0, some 120⟩ 120)
    ∧ SearchStream._parse_iso8601 "2024-01-15T10:30:00Z" =
        some (instantOf ⟨2024, 1, 15, 10, 30, 0, 0, some 0⟩ 0)
    ∧ SearchStream._parse_iso8601 "2024-01-15T10:30:00" =
        some (instantOf ⟨2024, 1, 15, 10, 30, 0, 0, none⟩ 0)
    ∧ SearchStream._config_start_date (some "garbage") = none := by
  refine ⟨?_, ?_, ?_, ?_, ?_⟩
  · exact claim_C6.1 "2024-03-05" 2024 3 5 (by decide) (by decide) (by decide) (by decide)
  · exact claim_C6.2.1 "2024-01-15T10:30:00+02:00" ⟨2024, 1, 15, 10, 30, 0, 0, some 120⟩
      120 (by decide) (by decide) (by decide) (by decide) (by decide)
  · exact claim_C6.2.2.1 "2024-01-15T10:30:00Z" ⟨2024, 1, 15, 10, 30, 0, 0, some 0⟩
      (by decide) (by decide) (by decide) (by decide)
  · exact claim_C6.2.2.2.1 "2024-01-15T10:30:00" ⟨2024, 1, 15, 10, 30, 0, 0, none⟩
      (by decide) (by decide) (by decide) (by decide) (by decide)
  · exact claim_C6.2.2.2.2.2.2 "garbage" (by decide)

/-! ## Claims about lineage enrichment and walker failure handling -/

/-- Claim C5 counterexample: PageBlocksStream.post_process assigns
_page_id unconditionally from the context, overwriting a value already
present on the record, so the claim that enrichment fields are set only
when absent and never overwritten fails at this input. -/
theorem claim_C5_counterexample :
    JObj.get (PageBlocksStream.post_process
        [("_page_id", JVal.s "origin")] (some [("page_id", JVal.s "later")]))
        "_page_id" = some (JVal.s "later")
    ∧ JVal.s "later" ≠ JVal.s "origin" := by
  decide

/-- Claim C5 as amended: in the tree walker the enrichment is
set-if-absent, never overwrites an existing _page_id or _parent_block_id,
and sets _parent_block_id only when the immediate parent id is truthy
(non-null); but PageBlocksStream.post_process assigns _page_id
unconditionally from the context, replacing any pre-existing value. -/
theorem claim_C5_amended (o : JObj) (pid : String) (pbid : Option String) :
    (∀ v, JObj.get o "_page_id" = some v →
      JObj.get (BlockChildrenStream.enrich pid pbid o) "_page_id" = some v)
    ∧ (JObj.get o "_page_id" = none →
        JObj.get (BlockChildrenStream.enrich pid pbid o) "_page_id" = some (.s pid))
    ∧ (∀ v, JObj.get o "_parent_block_id" = some v →
        JObj.get (BlockChildrenStream.enrich pid pbid o) "_parent_block_id" = some v)
    ∧ (optTruthyStr pbid = true → JObj.get o "_parent_block_id" = none →
        JObj.get (BlockChildrenStream.enrich pid pbid o) "_parent_block_id" =
          some (.s (pbid.getD "")))
    ∧ (optTruthyStr pbid = false →
        JObj.get (BlockChildrenStream.enrich pid pbid o) "_parent_block_id" =
          JObj.get o "_parent_block_id")
    ∧ (∀ (row ctx : JObj) (v : JVal), ctx ≠ [] → JObj.get ctx "page_id" = some v →
        JObj.get (PageBlocksStream.post_process row (some ctx)) "_page_id" = some v) := by
  have hne : "_parent_block_id" ≠ "_page_id" := by decide
  have hne2 : "_page_id" ≠ "_parent_block_id" := by decide
  refine ⟨fun v hv => ?_, fun hv => ?_, fun v hv => ?_, fun ht hv => ?_,
    fun ht => ?_, fun row ctx v hctx hv => ?_⟩
  · unfold BlockChildrenStream.enrich
    split
    · rw [JObj.get_setdefault_ne _ _ _ _ hne]
      exact JObj.get_setdefault_present _ _ _ _ hv
    · exact JObj.get_setdefault_present _ _ _ _ hv
  · unfold BlockChildrenStream.enrich
    split
    · rw [JObj.get_setdefault_ne _ _ _ _ hne]
      exact JObj.get_setdefault_absent _ _ _ hv
    · exact JObj.get_setdefault_absent _ _ _ hv
  · unfold BlockChildrenStream.enrich
    split
    · exact JObj.get_setdefault_present _ _ _ _
        (by rw [JObj.get_setdefault_ne _ _ _ _ hne2]; exact hv)
    · rw [JObj.get_setdefault_ne _ _ _ _ hne2]
      exact hv
  · unfold BlockChildrenStream.enrich
    rw [if_pos ht]
    exact JObj.get_setdefault_absent _ _ _
      (by rw [JObj.get_setdefault_ne _ _ _ _ hne2]; exact hv)
  · unfold BlockChildrenStream.enrich
    rw [if_neg (by simp [ht])]
    rw [JObj.get_setdefault_ne _ _ _ _ hne2]
  · unfold PageBlocksStream.post_process
    dsimp only
    rw [if_neg hctx, hv]
    exact JObj.get_set_same _ _ _

/-- Witness for the amended claim C5 at concrete records: a pre-existing
_page_id is preserved by the walker enrichment, a missing
_parent_block_id is filled from a truthy parent, and the page-blocks
post_process installs the context page id. -/
theorem claim_C5_witness :
    JObj.get (BlockChildrenStream.enrich "pid" (some "par")
        [("_page_id", JVal.s "keep")]) "_page_id" = some (JVal.s "keep")
    ∧ JObj.get (BlockChildrenStream.enrich "pid" (some "par") [])
        "_parent_block_id" = some (JVal.s "par")
    ∧ JObj.get (PageBlocksStream.post_process []
        (some [("page_id", JVal.s "p1")])) "_page_id" = some (JVal.s "p1") := by
  refine ⟨?_, ?_, ?_⟩
  · exact (claim_C5_amended [("_page_id", JVal.s "keep")] "pid" (some "par")).1
      (JVal.s "keep") (by decide)
  · exact (claim_C5_amended [] "pid" (some "par")).2.2.2.1 (by decide) (by decide)
  · exact (claim_C5_amended [] "pid" none).2.2.2.2.2
      [] [("page_id", JVal.s "p1")] (JVal.s "p1") (by decide) (by decide)

/-- Claim C7: an HTTP failure on the page request of the current call
makes the whole call fail with the http error, and an error arising in
the recursive descent below the first block of a fetched page propagates
verbatim to the enclosing call, aborting the traversal instead of
skipping the subtree; the walker applies its fetch oracle once per page,
so no retry exists. -/
theorem claim_C7 (env : BlockChildrenStream.FetchFn) (fuel : Nat)
    (parent page_id : String) (pbid cursor : Option String) :
    (env parent cursor = .error () →
      BlockChildrenStream._iter_children env (fuel + 1) parent page_id pbid cursor
        = .error .http)
    ∧ (∀ (page : BlockChildrenStream.Page) (block : JObj) (rest : List JObj)
        (cid : String) (e : BlockChildrenStream.WalkErr),
        env parent cursor = .ok page →
        page.results = block :: rest →
        jvalTruthyOpt (JObj.get (BlockChildrenStream.enrich page_id pbid block)
          "has_children") = true →
        JObj.get (BlockChildrenStream.enrich page_id pbid block) "id"
          = some (.s cid) →
        BlockChildrenStream._iter_children env fuel cid page_id (some cid) none
          = .error e →
        BlockChildrenStream._iter_children env (fuel + 1) parent page_id pbid cursor
          = .error e) := by
  constructor
  · intro h
    simp only [BlockChildrenStream._iter_children, h]
  · intro page block rest cid e hok hres hflag hid herr
    simp only [BlockChildrenStream._iter_children, hok, hres,
      BlockChildrenStream._process_blocks]
    rw [if_pos hflag, hid]
    dsimp only
    rw [herr]

/-- Witness for claim C7: a failing root request aborts with the http
error, and a failure two levels down propagates through a successful
first page. -/
theorem claim_C7_witness :
    BlockChildrenStream._iter_children (fun _ _ => .error ()) 1 "p" "p" none none
      = .error .http
    ∧ BlockChildrenStream._iter_children
        (fun id _ =>
          if id = "p" then
            .ok ⟨[[("has_children", JVal.b true), ("id", JVal.s "b1")]], none⟩
          else .error ())
        2 "p" "p" none none = .error .http := by
  constructor
  · exact (claim_C7 (fun _ _ => .error ()) 0 "p" "p" none none).1 rfl
  · exact (claim_C7 _ 1 "p" "p" none none).2
      ⟨[[("has_children", JVal.b true), ("id", JVal.s "b1")]], none⟩
      [("has_children", JVal.b true), ("id", JVal.s "b1")] [] "b1" .http
      rfl rfl (by decide) (by decide) (by decide)

/-- Claim C10: a block whose has_children flag is truthy but whose id is
missing or not a string is still emitted, while its descent is skipped
silently: for every descend function the loop result equals the enriched
block followed by the processing of the remaining blocks, so no request
is issued for that subtree and no error arises from it. -/
theorem claim_C10 (descend : String → Except BlockChildrenStream.WalkErr (List JObj))
    (page_id : String) (pbid : Option String) (block : JObj) (rest : List JObj)
    (hflag : jvalTruthyOpt (JObj.get (BlockChildrenStream.enrich page_id pbid block)
      "has_children") = true)
    (hid : BlockChildrenStream.isStringVal
      (JObj.get (BlockChildrenStream.enrich page_id pbid block) "id") = false) :
    BlockChildrenStream._process_blocks descend page_id pbid (block :: rest) =
      match BlockChildrenStream._process_blocks descend page_id pbid rest with
      | .error e => .error e
      | .ok rs => .ok (BlockChildrenStream.enrich page_id pbid block :: rs) := by
  simp only [BlockChildrenStream._process_blocks]
  rw [if_pos hflag]
  cases hg : JObj.get (BlockChildrenStream.enrich page_id pbid block) "id" with
  | none =>
      cases hrest : BlockChildrenStream._process_blocks descend page_id pbid rest <;> simp
  | some v =>
      cases v with
      | s str => rw [hg] at hid; simp [BlockChildrenStream.isStringVal] at hid
      | b bb =>
          cases hrest : BlockChildrenStream._process_blocks descend page_id pbid rest <;>
            simp
      | n =>
          cases hrest : BlockChildrenStream._process_blocks descend page_id pbid rest <;>
            simp

/-- Witness for claim C10: a block with a boolean id and a truthy
has_children flag is emitted and no descent occurs, even for a descend
function that always fails. -/
theorem claim_C10_witness :
    BlockChildrenStream._process_blocks (fun _ => .error .http) "p" none
        [[("has_children", JVal.b true), ("id", JVal.b true)]] =
      .ok [[("has_children", JVal.b true), ("id", JVal.b true),
        ("_page_id", JVal.s "p")]] := by
  rw [claim_C10 (fun _ => .error .http) "p" none
    [("has_children", JVal.b true), ("id", JVal.b true)] [] (by decide) (by decide)]
  decide

/-- Witness for claim C9 on an always-failing fetch oracle: a missing
seed returns the empty set without consulting the oracle. -/
theorem claim_C9_witness :
    BlockChildrenStream.get_records (fun _ _ => .error ()) 3 none = .ok []
    ∧ BlockChildrenStream.get_records (fun _ _ => .error ()) 3
        (some [("block_id", JVal.s "x")]) = .ok [] := by
  refine ⟨(claim_C9 (fun _ _ => .error ()) 3).1, ?_⟩
  exact (claim_C9 (fun _ _ => .error ()) 3).2 [("block_id", JVal.s "x")] (by decide)

/-! ## Lemmas about synthetic containment trees -/

namespace BlockChildrenStream

mutual
/-- The id of every block of a tree occurs in the id list of the tree. -/
theorem mem_allN_ids : (n t : TNode) → t ∈ allN n → idStr t.objOf ∈ idsN n
  | .mk o ch, t, h => by
      simp only [allN] at h
      simp only [idsN]
      rcases List.mem_cons.mp h with h1 | h2
      · subst h1
        exact List.mem_cons_self _ _
      · exact List.mem_cons_of_mem _ (mem_allF_ids ch t h2)

/-- The id of every block of a forest occurs in the id list of the
forest. -/
theorem mem_allF_ids : (f : TForest) → (t : TNode) → t ∈ allF f →
    idStr t.objOf ∈ idsF f
  | .nil, t, h => by simp [allF] at h
  | .cons n f2, t, h => by
      simp only [allF] at h
      simp only [idsF]
      rcases List.mem_append.mp h with h1 | h2
      · exact List.mem_append_left _ (mem_allN_ids n t h1)
      · exact List.mem_append_right _ (mem_allF_ids f2 t h2)
end

mutual
/-- Finding an id absent from a tree yields nothing. -/
theorem findN_none : (n : TNode) → (i : String) → i ∉ idsN n → findN n i = none
  | .mk o ch, i, h => by
      simp only [idsN] at h
      simp only [findN]
      have hne : ¬ (idStr o = i) := fun he => h (List.mem_cons.mpr (Or.inl he.symm))
      rw [if_neg hne]
      exact findF_none ch i fun hm => h (List.mem_cons_of_mem _ hm)

/-- Finding an id absent from a forest yields nothing. -/
theorem findF_none : (f : TForest) → (i : String) → i ∉ idsF f → findF f i = none
  | .nil, _, _ => rfl
  | .cons n f2, i, h => by
      simp only [idsF] at h
      simp only [findF]
      rw [findN_none n i fun hm => h (List.mem_append_left _ hm)]
      exact findF_none f2 i fun hm => h (List.mem_append_right _ hm)
end

mutual
/-- With distinct ids, finding the id of a block of a tree returns that
block. -/
theorem findN_mem : (n t : TNode) → (idsN n).Nodup → t ∈ allN n →
    findN n (idStr t.objOf) = some t
  | .mk o ch, t, hnd, h => by
      simp only [allN] at h
      simp only [idsN, List.nodup_cons] at hnd
      simp only [findN]
      rcases List.mem_cons.mp h with h1 | h2
      · subst h1
        simp [TNode.objOf]
      · have hid : idStr t.objOf ∈ idsF ch := mem_allF_ids ch t h2
        have hne : ¬ (idStr o = idStr t.objOf) := fun he => hnd.1 (by rw [he]; exact hid)
        rw [if_neg hne]
        exact findF_mem ch t hnd.2 h2

/-- With distinct ids, finding the id of a block of a forest returns that
block. -/
theorem findF_mem : (f : TForest) → (t : TNode) → (idsF f).Nodup →
    t ∈ allF f → findF f (idStr t.objOf) = some t
  | .nil, t, _, h => by simp [allF] at h
  | .cons n f2, t, hnd, h => by
      simp only [allF] at h
      simp only [idsF, List.nodup_append] at hnd
      simp only [findF]
      rcases List.mem_append.mp h with h1 | h2
      · rw [findN_mem n t hnd.1 h1]
      · have hid : idStr t.objOf ∈ idsF f2 := mem_allF_ids f2 t h2
        rw [findN_none n _ fun hm => hnd.2.2 hm hid]
        exact findF_mem f2 t hnd.2.1 h2
end

mutual
/-- Every block of a well-formed tree is well formed. -/
theorem okN_mem : (n t : TNode) → okN n = true → t ∈ allN n → okN t = true
  | .mk o ch, t, hok, h => by
      simp only [allN] at h
      rcases List.mem_cons.mp h with h1 | h2
      · subst h1
        exact hok
      · simp only [okN, Bool.and_eq_true] at hok
        exact okF_mem ch t hok.2 h2

/-- Every block of a well-formed forest is well formed. -/
theorem okF_mem : (f : TForest) → (t : TNode) → okF f = true → t ∈ allF f →
    okN t = true
  | .nil, t, _, h => by simp [allF] at h
  | .cons n f2, t, hok, h => by
      simp only [allF] at h
      simp only [okF, Bool.and_eq_true] at hok
      rcases List.mem_append.mp h with h1 | h2
      · exact okN_mem n t hok.1 h1
      · exact okF_mem f2 t hok.2 h2
end

/-- A well-formed block has a string id, no pre-existing enrichment
fields, and a well-formed child forest. -/
theorem okN_parts (o : JObj) (ch : TForest) (hok : okN (.mk o ch) = true) :
    (∃ i, JObj.get o "id" = some (.s i))
    ∧ JObj.get o "_page_id" = none
    ∧ JObj.get o "_parent_block_id" = none
    ∧ okF ch = true := by
  simp only [okN, Bool.and_eq_true] at hok
  obtain ⟨⟨⟨hid, hpg⟩, hpb⟩, hch⟩ := hok
  refine ⟨?_, by simpa using hpg, by simpa using hpb, hch⟩
  cases hg : JObj.get o "id" with
  | none => rw [hg] at hid; simp at hid
  | some v =>
      cases v with
      | s i => exact ⟨i, rfl⟩
      | b bb => rw [hg] at hid; simp at hid
      | n => rw [hg] at hid; simp at hid

/-- On a forest with distinct ids not containing the page id, the tree
oracle answers the request for the id of any block of the forest with
that block's children in a single page. -/
theorem treeEnv_node (pid : String) (f : TForest) (hnd : (idsF f).Nodup)
    (hpid : pid ∉ idsF f) (t : TNode) (h : t ∈ allF f) (cur : Option String) :
    treeEnv pid f (idStr t.objOf) cur = .ok ⟨topObjs t.kids, none⟩ := by
  unfold treeEnv
  have hne : ¬ (idStr t.objOf = pid) := fun he => hpid (by rw [← he]; exact mem_allF_ids f t h)
  rw [if_neg hne, findF_mem f t hnd h]

/-- Main traversal lemma: on a well-formed forest with distinct ids, the
block-processing loop with tree-oracle descent at sufficient fuel
produces exactly the gated pre-order enumeration of any sub-forest. -/
theorem process_tree (pid : String) (f : TForest) (hok : okF f = true)
    (hnd : (idsF f).Nodup) (hpid : pid ∉ idsF f) :
    (c : TForest) → (fuel : Nat) → (pbid : Option String) →
    (∀ t, t ∈ allF c → t ∈ allF f) → heightF c ≤ fuel →
    _process_blocks
      (fun cid => _iter_children (treeEnv pid f) fuel cid pid (some cid) none)
      pid pbid (topObjs c) = .ok (emitF pid pbid c)
  | .nil, fuel, pbid, _, _ => by
      simp [topObjs, _process_blocks, emitF]
  | .cons (.mk o ch) c2, fuel, pbid, hsub, hh => by
      have hmem : TNode.mk o ch ∈ allF f := by
        refine hsub _ ?_
        simp [allF, allN]
      have hokn : okN (.mk o ch) = true := okF_mem f _ hok hmem
      obtain ⟨⟨i, hid⟩, hpg, hpb, hchok⟩ := okN_parts o ch hokn
      have hh2 : heightF ch + 1 ≤ fuel ∧ heightF c2 ≤ fuel := by
        simp only [heightF, heightN, max_le_iff] at hh
        exact hh
      have hbid : JObj.get (enrich pid pbid o) "id" = some (.s i) := by
        rw [enrich_get_other pid pbid o "id" (by decide) (by decide)]
        exact hid
      have htail := process_tree pid f hok hnd hpid c2 fuel pbid
        (fun t ht => hsub t (by
          simp only [allF]
          exact List.mem_append_right _ ht))
        hh2.2
      simp only [topObjs, TNode.objOf, _process_blocks]
      cases hflag : jvalTruthyOpt (JObj.get (enrich pid pbid o) "has_children") with
      | false =>
          rw [if_neg (by simp)]
          rw [htail]
          simp only [emitF, emitN]
          rw [if_neg (by simp [hflag])]
          simp
      | true =>
          rw [if_pos rfl, hbid]
          dsimp only
          obtain ⟨w, rfl⟩ : ∃ w, fuel = w + 1 := ⟨fuel - 1, by omega⟩
          have henv : treeEnv pid f i none = .ok ⟨topObjs ch, none⟩ := by
            have h0 := treeEnv_node pid f hnd hpid (.mk o ch) hmem none
            rw [show idStr (TNode.mk o ch).objOf = i from by
              simp [TNode.objOf, idStr, hid]] at h0
            exact h0
          have hdesc : _iter_children (treeEnv pid f) (w + 1) i pid (some i) none
              = .ok (emitF pid (some i) ch) := by
            simp only [_iter_children, henv]
            rw [process_tree pid f hok hnd hpid ch w (some i)
              (fun t ht => hsub t (by
                simp only [allF, allN]
                exact List.mem_append_left _ (List.mem_cons_of_mem _ ht)))
              (by omega)]
            rfl
          rw [hdesc, htail]
          simp only [emitF, emitN]
          rw [if_pos hflag, hbid]
          simp

/-- The walk over a well-formed synthetic tree returns exactly the gated
pre-order enumeration of the forest. -/
theorem walk_tree (pid : String) (f : TForest) (hok : okF f = true)
    (hnd : (idsF f).Nodup) (hpid : pid ∉ idsF f) (fuel : Nat)
    (hfuel : heightF f < fuel) :
    _walk_blocks (treeEnv pid f) fuel pid = .ok (emitF pid none f) := by
  obtain ⟨w, rfl⟩ : ∃ w, fuel = w + 1 := ⟨fuel - 1, by omega⟩
  unfold _walk_blocks
  have henv : treeEnv pid f pid none = .ok ⟨topObjs f, none⟩ := by
    unfold treeEnv
    rw [if_pos rfl]
  simp only [_iter_children, henv]
  rw [process_tree pid f hok hnd hpid f w none (fun t ht => ht) (by omega)]
  rfl

mutual
/-- The emitted ids of a well-formed tree form a sublist of its id
list. -/
theorem emitN_ids_sublist : (n : TNode) → (pid : String) → (pbid : Option String) →
    okN n = true → List.Sublist (objIds (emitN pid pbid n)) (idsN n)
  | .mk o ch, pid, pbid, hok => by
      obtain ⟨⟨i, hid⟩, hpg, hpb, hchok⟩ := okN_parts o ch hok
      have hbid : idOf (enrich pid pbid o) = some i := by
        unfold idOf
        rw [enrich_get_other pid pbid o "id" (by decide) (by decide), hid]
      have hidstr : idStr o = i := by simp [idStr, hid]
      have hgid : JObj.get (enrich pid pbid o) "id" = some (.s i) := by
        rw [enrich_get_other pid pbid o "id" (by decide) (by decide)]
        exact hid
      simp only [emitN, idsN]
      cases hflag : jvalTruthyOpt (JObj.get (enrich pid pbid o) "has_children") with
      | false =>
          rw [if_neg (by simp)]
          simp only [objIds, List.filterMap_cons, hbid, List.filterMap_nil, hidstr]
          exact List.Sublist.cons₂ _ (List.nil_sublist _)
      | true =>
          rw [if_pos rfl, hgid]
          dsimp only
          simp only [objIds, List.filterMap_cons, hbid, hidstr]
          exact List.Sublist.cons₂ _ (emitF_ids_sublist ch pid (some i) hchok)

/-- The emitted ids of a well-formed forest form a sublist of its id
list. -/
theorem emitF_ids_sublist : (f : TForest) → (pid : String) → (pbid : Option String) →
    okF f = true → List.Sublist (objIds (emitF pid pbid f)) (idsF f)
  | .nil, _, _, _ => by simp [emitF, objIds, idsF]
  | .cons n f2, pid, pbid, hok => by
      simp only [okF, Bool.and_eq_true] at hok
      simp only [emitF, idsF, objIds, List.filterMap_append]
      exact List.Sublist.append (emitN_ids_sublist n pid pbid hok.1)
        (emitF_ids_sublist f2 pid pbid hok.2)
end

mutual
/-- Every record emitted from a well-formed tree carries the originating
page id in _page_id. -/
theorem emitN_page_id : (n : TNode) → (pid : String) → (pbid : Option String) →
    okN n = true → ∀ r ∈ emitN pid pbid n, JObj.get r "_page_id" = some (.s pid)
  | .mk o ch, pid, pbid, hok => by
      obtain ⟨⟨i, hid⟩, hpg, hpb, hchok⟩ := okN_parts o ch hok
      intro r hr
      simp only [emitN] at hr
      rcases List.mem_cons.mp hr with h1 | h2
      · subst h1
        exact enrich_page_id_absent pid pbid o hpg
      · split at h2
        · split at h2
          · exact emitF_page_id ch pid _ hchok r h2
          · simp at h2
        · simp at h2

/-- Every record emitted from a well-formed forest carries the
originating page id in _page_id. -/
theorem emitF_page_id : (f : TForest) → (pid : String) → (pbid : Option String) →
    okF f = true → ∀ r ∈ emitF pid pbid f, JObj.get r "_page_id" = some (.s pid)
  | .nil, _, _, _ => by intro r hr; simp [emitF] at hr
  | .cons n f2, pid, pbid, hok => by
      simp only [okF, Bool.and_eq_true] at hok
      intro r hr
      simp only [emitF] at hr
      rcases List.mem_append.mp hr with h1 | h2
      · exact emitN_page_id n pid pbid hok.1 r h1
      · exact emitF_page_id f2 pid pbid hok.2 r h2
end

end BlockChildrenStream

/-- Claim C2: on every finite containment tree with distinct node ids,
none of which equals the page id, whose blocks carry string ids and no
pre-existing enrichment fields, and whose single-page child listings
return exactly each node's children, the walk started from the page id
returns exactly the gated pre-order enumeration emitF of the forest
(every reachable block once, parents before descendants, descending only
below blocks whose has_children flag is truthy), the emitted ids are
distinct and drawn from the tree, and every emitted record carries the
original page id in _page_id. -/
theorem claim_C2 (pid : String) (f : BlockChildrenStream.TForest) (fuel : Nat)
    (hok : BlockChildrenStream.okF f = true)
    (hnd : (BlockChildrenStream.idsF f).Nodup)
    (hpid : pid ∉ BlockChildrenStream.idsF f)
    (hfuel : BlockChildrenStream.heightF f < fuel) :
    BlockChildrenStream._walk_blocks (BlockChildrenStream.treeEnv pid f) fuel pid
      = .ok (BlockChildrenStream.emitF pid none f)
    ∧ (BlockChildrenStream.objIds (BlockChildrenStream.emitF pid none f)).Nodup
    ∧ List.Sublist (BlockChildrenStream.objIds (BlockChildrenStream.emitF pid none f))
        (BlockChildrenStream.idsF f)
    ∧ ∀ r ∈ BlockChildrenStream.emitF pid none f,
        JObj.get r "_page_id" = some (.s pid) := by
  refine ⟨BlockChildrenStream.walk_tree pid f hok hnd hpid fuel hfuel,
    List.Nodup.sublist (BlockChildrenStream.emitF_ids_sublist f pid none hok) hnd,
    BlockChildrenStream.emitF_ids_sublist f pid none hok,
    BlockChildrenStream.emitF_page_id f pid none hok⟩

/-- Witness for claim C2 on the concrete depth-three branching forest:
the walk output evaluates to the explicit pre-order record list. -/
theorem claim_C2_witness :
    BlockChildrenStream._walk_blocks
        (BlockChildrenStream.treeEnv "root" BlockChildrenStream.sampleForest) 4 "root"
      = .ok (BlockChildrenStream.emitF "root" none BlockChildrenStream.sampleForest)
    ∧ (BlockChildrenStream.objIds
        (BlockChildrenStream.emitF "root" none BlockChildrenStream.sampleForest)).Nodup
    ∧ BlockChildrenStream.emitF "root" none BlockChildrenStream.sampleForest =
        [[("id", JVal.s "a"), ("has_children", JVal.b true), ("_page_id", JVal.s "root")],
         [("id", JVal.s "b"), ("has_children", JVal.b true), ("_page_id", JVal.s "root"),
          ("_parent_block_id", JVal.s "a")],
         [("id", JVal.s "d"), ("has_children", JVal.b false), ("_page_id", JVal.s "root"),
          ("_parent_block_id", JVal.s "b")],
         [("id", JVal.s "c"), ("has_children", JVal.b false), ("_page_id", JVal.s "root")]] := by
  have h := claim_C2 "root" BlockChildrenStream.sampleForest 4
    (by decide) (by decide) (by decide) (by decide)
  exact ⟨h.1, h.2.1, by decide⟩

end TapNotion
